import Mathlib

/-!
Verification of the memory-management core of the Beryl kernel
(src/kernel/src/mm/{pmm,slab,heap,addr}.rs and src/kernel/src/utils/bitmap.rs).

The Rust code is shallowly embedded as follows:
* physical/virtual addresses and u64 values are `Nat`; the direct-map rule
  `VirtAddr = PhysAddr + hhdm` is explicit arithmetic;
* raw memory is a byte-addressed function `Nat → Nat`; 8-byte pointer
  stores/loads are little-endian (`writeWord`/`readWord`), matching the
  x86-64 target of the kernel;
* the frame bitmap is the list of bytes of the `&mut [u8]` buffer;
* the global atomics/locks (`LAST_USED_INDEX`, the two spin mutexes) are
  modelled by sequential state passing, which is the behaviour of the code
  under the lock discipline described in the sources;
* `panic!`/`expect` (out-of-memory and similar fatal paths) are `Option`
  with `none` for the panic;
* the statically allocated slab descriptors (`Alloc.slabs`) live outside of
  the modelled raw memory; the address of descriptor `i` (stored by
  `Slab::init` as the page back-reference) is the symbolic constant
  `slabDescAddr i`, with the natural field layout `size` at offset 0 and
  `first_free` at offset 8.
-/

set_option maxRecDepth 40000

namespace Beryl

/-- Byte-addressed raw memory. -/
def Mem : Type := Nat → Nat

/-- Little-endian load of one 64-bit machine word at address `a`. -/
def readWord (m : Mem) (a : Nat) : Nat :=
  m a + 256 * (m (a + 1) + 256 * (m (a + 2) + 256 * (m (a + 3) +
    256 * (m (a + 4) + 256 * (m (a + 5) + 256 * (m (a + 6) + 256 * m (a + 7)))))))

/-- Little-endian store of one 64-bit machine word at address `a`. -/
def writeWord (m : Mem) (a v : Nat) : Mem :=
  fun i => if a ≤ i ∧ i < a + 8 then v / 256 ^ (i - a) % 256 else m i

/-- `core::ptr::write_bytes(dst, val, count)`: fill `n` bytes from `a` with `v`. -/
def writeBytes (m : Mem) (a v n : Nat) : Mem :=
  fun i => if a ≤ i ∧ i < a + n then v else m i

/-- `core::ptr::copy_nonoverlapping(src, dst, count)` at byte granularity. -/
def copyMem (m : Mem) (src dst n : Nat) : Mem :=
  fun i => if dst ≤ i ∧ i < dst + n then m (src + (i - dst)) else m i

/-- `mm::align_up` from src/kernel/src/mm/mod.rs:
`(addr + align - 1) & !(align - 1)` on u64; the u64 complement of
`align - 1` is `2^64 - align`. -/
def align_up (addr al : Nat) : Nat :=
  (addr + al - 1) &&& (2 ^ 64 - al)

/-! ## Bitmap (src/kernel/src/utils/bitmap.rs)

The byte buffer is a `List Nat` (each entry one u8). -/

/-- `Bitmap::test`: `(inner[idx / 8] & (1 << (idx % 8))) != 0`. -/
def bitmapTest (bm : List Nat) (idx : Nat) : Bool :=
  (bm.getD (idx / 8) 0) &&& (1 <<< (idx % 8)) != 0

/-- `Bitmap::set`: `inner[idx / 8] |= 1 << (idx % 8)`. -/
def bitmapSet (bm : List Nat) (idx : Nat) : List Nat :=
  bm.set (idx / 8) ((bm.getD (idx / 8) 0) ||| (1 <<< (idx % 8)))

/-- `Bitmap::unset`: `inner[idx / 8] &= !(1 << (idx % 8))` (u8 complement). -/
def bitmapUnset (bm : List Nat) (idx : Nat) : List Nat :=
  bm.set (idx / 8) ((bm.getD (idx / 8) 0) &&& (255 ^^^ (1 <<< (idx % 8))))

/-- `Bitmap::len`: bit count of the buffer. -/
def bitmapLen (bm : List Nat) : Nat := bm.length * 8

/-! ## Frame allocator (src/kernel/src/mm/pmm.rs) -/

/-- The pmm state: the bitmap bytes behind the `BITMAP` mutex and the
`LAST_USED_INDEX` atomic cursor. -/
structure PmmState where
  bitmap : List Nat
  cursor : Nat
deriving DecidableEq, Repr

/-- The `for i in page..(page + pages) { bitmap.set(i) }` loop of
`alloc_inner`, as a recursion on the number of bits still to set. -/
def setRun (bm : List Nat) (lo : Nat) : Nat → List Nat
  | 0 => bm
  | n + 1 => setRun (bitmapSet bm lo) (lo + 1) n

/-- The `for i in page..(page + pages) { bitmap.unset(i) }` loop of `free`. -/
def unsetRun (bm : List Nat) (lo : Nat) : Nat → List Nat
  | 0 => bm
  | n + 1 => unsetRun (bitmapUnset bm lo) (lo + 1) n

/-- The scanning `while` loop of `alloc_inner`: `cursor` is the value of
`LAST_USED_INDEX`, `p` the current run length of consecutive free bits.
The first argument is structural-recursion fuel; each iteration increments
`cursor`, and the loop condition `cursor < bitmapLen bm` exits the loop, so
any fuel of at least `bitmapLen bm - cursor` (in particular `bitmapLen bm`)
makes the fuel irrelevant. On success the loop returns the first frame of
the run, the final cursor, and the bitmap with the run marked used. -/
def allocInnerLoop (bm : List Nat) (pages : Nat) :
    Nat → Nat → Nat → Option (Nat × Nat × List Nat)
  | 0, _, _ => none
  | fuel + 1, cursor, p =>
    if cursor < bitmapLen bm then
      if bitmapTest bm cursor = false then
        if p + 1 = pages then
          some (cursor + 1 - pages, cursor + 1, setRun bm (cursor + 1 - pages) pages)
        else
          allocInnerLoop bm pages fuel (cursor + 1) (p + 1)
      else
        allocInnerLoop bm pages fuel (cursor + 1) 0
    else
      none

/-- `alloc_inner(pages)`: scan from the shared cursor; on success the
returned address is `page * 0x1000`. `none` is the `return None` path. -/
def allocInner (s : PmmState) (pages : Nat) : Option (Nat × PmmState) :=
  match allocInnerLoop s.bitmap pages (bitmapLen s.bitmap) s.cursor 0 with
  | some (page, cur, bm) => some (page * 0x1000, ⟨bm, cur⟩)
  | none => none

/-- `alloc_nozero(pages)`: on failure reset `LAST_USED_INDEX` to 0 and retry
exactly once; a second failure is the fatal `expect("OOM")` panic (`none`). -/
def allocNozero (s : PmmState) (pages : Nat) : Option (Nat × PmmState) :=
  match allocInner s pages with
  | some r => some r
  | none => allocInner ⟨s.bitmap, 0⟩ pages

/-- `pmm::free(phys, pages)`: store the first freed index into the cursor,
then clear the run's bits. -/
def pmmFree (s : PmmState) (phys pages : Nat) : PmmState :=
  let page := phys / 0x1000
  ⟨unsetRun s.bitmap page pages, page⟩

/-! ## Slab allocator (src/kernel/src/mm/slab.rs) and the heap dispatcher
(src/kernel/src/mm/heap.rs)

`Slab` keeps the descriptor fields; `first_free` is the raw pointer as a
number, with 0 for `null_mut`. The whole-kernel state `KState` threads the
pmm state, the ten descriptors of the global `Alloc`, its `mem_used`
counter, the boot-time `HHDM_ADDRESS` and the raw memory. -/

structure Slab where
  size : Nat
  first_free : Nat
deriving DecidableEq, Inhabited

structure KState where
  pmm : PmmState
  slabs : List Slab
  mem_used : Nat
  hhdm : Nat
  mem : Mem

/-- Symbolic base address of the statically allocated `GLOBAL_ALLOC.slabs`
array (it lives in the kernel image, outside the direct-mapped frames the
allocator hands out). -/
def SLAB_DESC_BASE : Nat := 0x8000000

/-- Address of slab descriptor `i`, as stored by `Slab::init` into the page
header (`*hdr = self`); a `Slab` is two 8-byte fields. -/
def slabDescAddr (i : Nat) : Nat := SLAB_DESC_BASE + 16 * i

/-- `pmm::alloc(pages)`: `alloc_nozero` plus `write_bytes` zeroing of the
`pages * 0x1000` bytes at the direct-mapped address of the run. -/
def pmmAllocZ (st : KState) (pages : Nat) : Option (Nat × KState) :=
  match allocNozero st.pmm pages with
  | none => none
  | some (phys, pm) =>
    some (phys, { st with
      pmm := pm
      mem := writeBytes st.mem (phys + st.hhdm) 0 (pages * 0x1000) })

/-- The `for i in 0..max` link-writing loop of `Slab::init`:
`*arr.add(i * fact) = arr.add((i + 1) * fact).cast()`. `arr` is a
`*mut *mut ()`, so `.add(k)` advances by `8 * k` bytes. The recursion
performs the writes for `i = 0, …, n - 1`, in increasing order. -/
def writeChain (arr fact : Nat) (m : Mem) : Nat → Mem
  | 0 => m
  | n + 1 => writeWord (writeChain arr fact m n) (arr + 8 * (n * fact)) (arr + 8 * ((n + 1) * fact))

/-- `Slab::init` for descriptor `i`: draw one zeroed frame, store the
back-reference at the page start, set `first_free` to
`addr.as_mut_ptr::<*mut ()>().add(hdr_offset)` — that is, to the byte
address `virt + 8 * hdr_offset`, since `.add` counts in 8-byte pointees —
and link `max + 1` blocks spaced `8 * fact` bytes apart, the last link
being null. `none` is the out-of-memory panic inside `pmm::alloc`. -/
def slabInitAt (st : KState) (i : Nat) : Option KState :=
  match pmmAllocZ st 1 with
  | none => none
  | some (phys, st1) =>
    let virt := phys + st1.hhdm
    let sz := (st1.slabs.getD i default).size
    let hdr_offset := align_up 8 sz
    let avl := 0x1000 - hdr_offset
    let m1 := writeWord st1.mem virt (slabDescAddr i)
    let arr := virt + 8 * hdr_offset
    let mx := avl / sz - 1
    let fact := sz / 8
    let m2 := writeChain arr fact m1 mx
    let m3 := writeWord m2 (arr + 8 * (mx * fact)) 0
    some { st1 with mem := m3, slabs := st1.slabs.set i ⟨sz, arr⟩ }

/-- `Slab::alloc` on descriptor `i`: initialize a fresh page when the free
list is null, then pop the head (`first_free = *old_free`) and zero the
returned block's `size` bytes. -/
def slabAllocAt (st : KState) (i : Nat) : Option (Nat × KState) :=
  let st? := if (st.slabs.getD i default).first_free = 0 then slabInitAt st i else some st
  match st? with
  | none => none
  | some st1 =>
    let s := st1.slabs.getD i default
    let old := s.first_free
    let nf := readWord st1.mem old
    some (old, { st1 with
      mem := writeBytes st1.mem old 0 s.size
      slabs := st1.slabs.set i ⟨s.size, nf⟩ })

/-- `Slab::free(ptr)` as invoked by the heap dispatcher: the dispatcher
casts the page base address itself to `&mut Slab`, so the struct the push
mutates lies in raw memory at `base` — `self.first_free` is the word at
`base + 8`. The push writes `*ptr = self.first_free` then
`self.first_free = ptr`. -/
def fakeSlabFree (m : Mem) (base ptr : Nat) : Mem :=
  writeWord (writeWord m ptr (readWord m (base + 8))) (base + 8) ptr

/-- The ten fixed size classes of `Alloc::new` / `Alloc::alloc`. -/
def sizeClasses : List Nat := [8, 16, 24, 32, 48, 64, 128, 256, 512, 1024]

/-- The descriptors created by `Alloc::new`. -/
def newSlabs : List Slab :=
  [⟨8, 0⟩, ⟨16, 0⟩, ⟨24, 0⟩, ⟨32, 0⟩, ⟨48, 0⟩, ⟨64, 0⟩, ⟨128, 0⟩, ⟨256, 0⟩, ⟨512, 0⟩, ⟨1024, 0⟩]

/-- The `enumerate().find_map(...)` routing of `Alloc::alloc`: index of the
first class of size at least `size`. -/
def findMapIdx (size : Nat) : List Nat → Nat → Option Nat
  | [], _ => none
  | s :: rest, i => if size ≤ s then some i else findMapIdx size rest (i + 1)

def slabIndex (size : Nat) : Option Nat := findMapIdx size sizeClasses 0

/-- `Alloc::alloc(layout)`: bump `mem_used` by the requested size (u64
wrap-around), route to the first fitting class, otherwise round up to whole
pages and go to the frame allocator, returning the direct-mapped address.
The layout's alignment is not consulted. -/
def heapAlloc (st : KState) (size : Nat) : Option (Nat × KState) :=
  let st := { st with mem_used := (st.mem_used + size) % 2 ^ 64 }
  match slabIndex size with
  | some i => slabAllocAt st i
  | none =>
    let pages := align_up size 4096 / 4096
    match pmmAllocZ st pages with
    | none => none
    | some (phys, st1) => some (phys + st1.hhdm, st1)

/-- `Alloc::free(ptr, layout)`: decrement `mem_used` (u64 wrap-around); if
the pointer is page-aligned, release the page run through `pmm::free`;
then — with no early return in the source — fall through to the slab path:
cast the containing page base to `&mut Slab` and push `ptr`. -/
def heapFree (st : KState) (ptr size : Nat) : KState :=
  let st := { st with mem_used := (st.mem_used + (2 ^ 64 - size % 2 ^ 64)) % 2 ^ 64 }
  let st :=
    if ptr &&& 0xFFF = 0 then
      { st with pmm := pmmFree st.pmm (ptr - st.hhdm) (align_up size 4096 / 4096) }
    else st
  { st with mem := fakeSlabFree st.mem (ptr &&& 0xFFFFFFFFFFFFF000) ptr }

/-- `Alloc::realloc(ptr, layout, new_size)`. A null pointer is a fresh
`alloc`. For a page-aligned pointer: if `align_up(size, 4096) == new_size`
the pointer is returned unchanged, else a new region is allocated and
`min(size, new_size)` bytes are copied (the old run is not released).
Otherwise the page base is cast to `&mut Slab`; when `new_size` exceeds the
word read as `slab.size`, a new region is allocated, `slab.size` bytes are
copied, and the block is pushed on that fake slab. The layout's alignment
only feeds `Layout::from_size_align`, which `alloc` ignores. -/
def heapRealloc (st : KState) (ptr size new_size : Nat) : Option (Nat × KState) :=
  if ptr = 0 then heapAlloc st new_size
  else if ptr &&& 0xFFF = 0 then
    if align_up size 4096 = new_size then some (ptr, st)
    else
      match heapAlloc st new_size with
      | none => none
      | some (np, st1) =>
        let n := if size > new_size then new_size else size
        some (np, { st1 with mem := copyMem st1.mem ptr np n })
  else
    let base := ptr &&& 0xFFFFFFFFFFFFF000
    let ssz := readWord st.mem base
    if new_size > ssz then
      match heapAlloc st new_size with
      | none => none
      | some (np, st1) =>
        some (np, { st1 with mem := fakeSlabFree (copyMem st1.mem ptr np ssz) base ptr })
    else some (ptr, st)

/-! ## Concrete states used by the example executions -/

/-- A freshly initialized kernel with a 32-frame physical memory (bitmap of
4 bytes, all frames free), the direct map at `0x10000`, untouched
descriptors and all-zero memory. -/
def freshState : KState :=
  { pmm := ⟨[0, 0, 0, 0], 0⟩, slabs := newSlabs, mem_used := 0
    hhdm := 0x10000, mem := fun _ => 0 }

/-- Like `freshState` after a live one-page frame allocation at physical 0
(virtual `0x10000`): frame 0 is marked used and the cursor sits past it. -/
def oneFrameLive : KState :=
  { pmm := ⟨[1, 0, 0, 0], 1⟩, slabs := newSlabs, mem_used := 4096
    hhdm := 0x10000, mem := fun _ => 0 }

/-- Run two `Alloc::alloc` calls and return both pointers. -/
def allocTwice (st : KState) (a b : Nat) : Option (Nat × Nat) :=
  (heapAlloc st a).bind fun r => (heapAlloc r.2 b).map fun r2 => (r.1, r2.1)

/-- The descriptors hold the sizes installed by `Alloc::new`. -/
def slabSizesOk (st : KState) : Prop := st.slabs.map Slab.size = sizeClasses

/-- The extent of the region `Alloc::alloc(size)` hands out: the class size
on the slab path, the page-rounded size on the frame path. -/
def regionLen (size : Nat) : Nat :=
  match slabIndex size with
  | some i => sizeClasses.getD i 0
  | none => align_up size 4096

/-! ## Frame-allocator initialization (src/kernel/src/mm/pmm.rs, `init`)

A boot memory-map entry; `usable` stands for
`typ == LimineMemoryMapEntryType::Usable`. -/

structure MemEntry where
  base : Nat
  len : Nat
  usable : Bool
deriving DecidableEq, Repr

/-- Highest usable physical address:
`highest_addr = max(highest_addr, entry.base + entry.len)` over usable
entries. -/
def pmmHighest (l : List MemEntry) : Nat :=
  l.foldl (fun a e => if e.usable then max a (e.base + e.len) else a) 0

/-- `bitmap_size = align_up(highest_addr / 4096 / 8, 4096)`. -/
def bitmapSizeOf (l : List MemEntry) : Nat :=
  align_up (pmmHighest l / 4096 / 8) 4096

/-- The bitmap-placement loop of `init`: every usable entry with
`len >= bitmap_size` is filled/claimed — the `bitmap` variable is
overwritten with a slice at the entry's (original) base, and the entry is
shrunk (`len -= bitmap_size; base += bitmap_size`). `acc` is the `bitmap`
variable: the base recorded by the latest claim so far. Returns the
modified entries and the final recorded base. -/
def carveLoop (bs : Nat) (acc : Option Nat) : List MemEntry → List MemEntry × Option Nat
  | [] => ([], acc)
  | e :: rest =>
    if e.usable && decide (bs ≤ e.len) then
      let r := carveLoop bs (some e.base) rest
      (⟨e.base + bs, e.len - bs, e.usable⟩ :: r.1, r.2)
    else
      let r := carveLoop bs acc rest
      (e :: r.1, r.2)

/-- One usable entry's bit-clearing loop:
`for i in (0..entry.len).step_by(4096) { bitmap.unset((entry.base + i) / 4096) }`. -/
def clearEntry (bm : List Nat) (base len : Nat) : List Nat :=
  (List.range ((len + 4095) / 4096)).foldl
    (fun b k => bitmapUnset b ((base + 4096 * k) / 4096)) bm

/-- `pmm::init` given the boot memory map: compute the bitmap size, run the
placement loop, start from an all-0xFF bitmap (the `fill(0xFF)` of the
claimed slice) and clear the bits of every usable (already shrunk) entry.
`none` is the `bitmap.unwrap()` panic when no region can hold the bitmap.
Returns the final memory map, the physical base the bitmap was placed at,
and the bitmap bytes. -/
def pmmInit (l : List MemEntry) : Option (List MemEntry × Nat × List Nat) :=
  let bs := bitmapSizeOf l
  let r := carveLoop bs none l
  match r.2 with
  | none => none
  | some base =>
    let bm0 := List.replicate bs 0xFF
    let bm := r.1.foldl (fun b e => if e.usable then clearEntry b e.base e.len else b) bm0
    some (r.1, base, bm)

/-- The map function the placement loop applies to every entry (used to
characterize `carveLoop`). -/
def carveEntry (bs : Nat) (e : MemEntry) : MemEntry :=
  if e.usable && decide (bs ≤ e.len) then ⟨e.base + bs, e.len - bs, e.usable⟩ else e

/-- The base the `bitmap` variable records after the whole loop: the
original base of the last usable entry long enough to hold the bitmap. -/
def lastCarvedBase (bs : Nat) (l : List MemEntry) : Option Nat :=
  l.foldl (fun a e => if e.usable && decide (bs ≤ e.len) then some e.base else a) none

/-- A two-region boot memory map: two adjacent usable 64 KiB regions. -/
def twoRegions : List MemEntry :=
  [⟨0, 0x10000, true⟩, ⟨0x10000, 0x10000, true⟩]

/-! ## General lemmas about the embedding -/

theorem writeBytes_apply_inside (m : Mem) (a v n j : Nat) (h : j < n) :
    writeBytes m a v n (a + j) = v := by
  unfold writeBytes
  rw [if_pos ⟨Nat.le_add_right a j, by omega⟩]

theorem align_up_4096_mod (a : Nat) : align_up a 4096 % 4096 = 0 := by
  have h1 := Nat.and_pow_two_sub_one_eq_mod (align_up a 4096) 12
  norm_num at h1
  rw [← h1]
  unfold align_up
  rw [Nat.land_assoc]
  have h2 : ((2 : Nat) ^ 64 - 4096) &&& 4095 = 0 := by decide
  rw [h2]
  simp

theorem align_up_4096_dvd (a : Nat) : 4096 ∣ align_up a 4096 :=
  Nat.dvd_of_mod_eq_zero (align_up_4096_mod a)

theorem align_up_4096_div_mul (a : Nat) :
    align_up a 4096 / 4096 * 4096 = align_up a 4096 :=
  Nat.div_mul_cancel (align_up_4096_dvd a)

theorem getD_set_self {α : Type} (l : List α) (i : Nat) (a d : α) (h : i < l.length) :
    (l.set i a).getD i d = a := by
  simp [List.getD, List.getElem?_set_self h]

theorem getD_map_size : ∀ (l : List Slab) (i : Nat), i < l.length →
    (l.getD i default).size = (l.map Slab.size).getD i 0 := by
  intro l
  induction l with
  | nil => intro i h; simp at h
  | cons hd tl ih =>
    intro i h
    cases i with
    | zero => simp [List.getD]
    | succ n =>
      rw [List.getD_cons_succ, List.map_cons, List.getD_cons_succ]
      exact ih n (by simpa using h)

theorem findMapIdx_lt : ∀ (l : List Nat) (k size i : Nat),
    findMapIdx size l k = some i → i < k + l.length := by
  intro l
  induction l with
  | nil => intro k size i h; simp [findMapIdx] at h
  | cons s rest ih =>
    intro k size i h
    simp only [findMapIdx] at h
    split at h
    · injection h with h; simp [List.length_cons]; omega
    · have := ih (k + 1) size i h; simp [List.length_cons]; omega

theorem slabIndex_lt_ten {size i : Nat} (h : slabIndex size = some i) : i < 10 := by
  have := findMapIdx_lt sizeClasses 0 size i h
  simpa [sizeClasses] using this

/-! ## The claims -/

/-- Claim C1, refuted by the code (free of a page-aligned pointer is not an
exclusive frame release): starting from a kernel with one live one-page
frame allocation at virtual 0x10000 over all-zero memory,
`Alloc::free(0x10000, 4096)` does release the page run through `pmm::free`
(frame 0's bit is cleared), but then falls through into the slab path and
performs a slab free-list push into the freed page: the word at 0x10008 —
the `first_free` field of the page base reinterpreted as a `Slab`
descriptor — changes from 0 to the pushed pointer value 0x10000. -/
theorem claimC1_free_not_exclusive :
    (heapFree oneFrameLive 0x10000 4096).pmm.bitmap = [0, 0, 0, 0] ∧
    readWord oneFrameLive.mem 0x10008 = 0 ∧
    readWord (heapFree oneFrameLive 0x10000 4096).mem 0x10008 = 0x10000 := by
  decide

/-- Claim C2, refuted by the code: from a fresh 32-frame kernel,
`alloc(1000)` (slab class 1024) returns block 73728 — placed by the
pointer arithmetic of `Slab::init` two pages past its backing frame — and a
following `alloc(5000)` (frame path, two pages) returns 69632 covering
[69632, 77824). No free has happened, yet the two simultaneously-live
regions share bytes: [73728, 74752) lies inside [69632, 77824). -/
theorem claimC2_live_overlap :
    allocTwice freshState 1000 5000 = some (73728, 69632) ∧
    69632 ≤ 73728 ∧ 73728 + 1024 ≤ 69632 + 8192 := by
  decide

/-- Claim C3, refuted by the code: on the first `alloc` of class 1024 from
a fresh kernel the backing frame is physical 0, virtual [65536, 69632), yet
the returned first block is 73728 = frame base + 8192 (because
`addr.as_mut_ptr::<*mut ()>().add(hdr_offset)` advances by
`8 * hdr_offset` bytes), and the descriptor's next free block is 74752:
the block array neither starts right after the header nor lies inside the
4096-byte frame. -/
theorem claimC3_blocks_escape_frame :
    (heapAlloc freshState 1000).map
        (fun r => (r.1, (r.2.slabs.getD 9 default).first_free)) = some (73728, 74752) ∧
    65536 + 4096 ≤ 73728 ∧ 65536 + 4096 ≤ 74752 := by
  decide

/-- Claim C4, refuted by the code: realloc of the live frame-granular
pointer 0x10000 (old size 4096) to 8192 bytes obtains a fresh two-page
region at 69632 and returns it, but never calls `pmm::free` on the old
run: frame 0's bit is still set in the final bitmap [7, 0, 0, 0]. -/
theorem claimC4_realloc_never_frees :
    (heapRealloc oneFrameLive 0x10000 4096 8192).map
        (fun r => (r.1, r.2.pmm.bitmap)) = some (69632, [7, 0, 0, 0]) ∧
    bitmapTest [7, 0, 0, 0] 0 = true := by
  decide

/-- Claim C5 counterexample: pointer 0x10000 is non-null, page-aligned,
with old size 4096 (one page) and new size 4000 (also one page), yet
realloc does not return it unchanged: the code's in-place test is
`align_up(old, 4096) == new_size` (4096 ≠ 4000), so a fresh one-page region
69632 is allocated (frame 1's bit becomes set) and returned. -/
theorem claimC5_counterexample :
    align_up 4096 4096 / 4096 = align_up 4000 4096 / 4096 ∧
    (heapRealloc oneFrameLive 0x10000 4096 4000).map
        (fun r => (r.1, r.2.pmm.bitmap)) = some (69632, [3, 0, 0, 0]) ∧
    (69632 : Nat) ≠ 0x10000 := by
  decide

/-- Claim C5 as amended: a non-null page-aligned (frame-granular) pointer
is returned unchanged by realloc, with no new allocation and the state
untouched, exactly when the requested new size equals
`align_up(old_size, 4096)` — not merely when the page counts agree. -/
theorem claimC5_amended (st : KState) (ptr size : Nat) (hnz : ptr ≠ 0)
    (hal : ptr &&& 0xFFF = 0) :
    heapRealloc st ptr size (align_up size 4096) = some (ptr, st) := by
  unfold heapRealloc
  rw [if_neg hnz, if_pos hal, if_pos rfl]

theorem claimC5_witness :
    heapRealloc oneFrameLive 0x10000 4096 (align_up 4096 4096) =
      some (0x10000, oneFrameLive) :=
  claimC5_amended oneFrameLive 0x10000 4096 (by decide) (by decide)

/-- Claim C7: a failed forward scan is retried exactly once from cursor 0
(`alloc_nozero` equals the cursor-0 `alloc_inner` whenever the first scan
fails, and a failing retry is the fatal OOM panic, `none`); a successful
first scan is returned as is; and in the 16-frame bitmap with frames 0–3
pre-marked used and the cursor at 0, `alloc(2)` returns frame 4 (physical
0x4000), marking bits 4 and 5. -/
theorem claimC7_single_retry :
    (∀ (s : PmmState) (pages : Nat), allocInner s pages = none →
        allocNozero s pages = allocInner ⟨s.bitmap, 0⟩ pages) ∧
    (∀ (s : PmmState) (pages : Nat) (r : Nat × PmmState), allocInner s pages = some r →
        allocNozero s pages = some r) ∧
    allocNozero ⟨[0x0F, 0x00], 0⟩ 2 = some (0x4000, ⟨[0x3F, 0x00], 6⟩) := by
  refine ⟨?_, ?_, by decide⟩
  · intro s pages h
    unfold allocNozero
    rw [h]
  · intro s pages r h
    unfold allocNozero
    rw [h]

theorem claimC7_witness :
    allocNozero ⟨[255, 255], 3⟩ 1 = allocInner ⟨[255, 255], 0⟩ 1 :=
  claimC7_single_retry.1 ⟨[255, 255], 3⟩ 1 (by decide)

theorem allocInnerLoop_zero_pages (bm : List Nat) :
    ∀ (fuel cursor p : Nat), allocInnerLoop bm 0 fuel cursor p = none := by
  intro fuel
  induction fuel with
  | zero => intro c p; rfl
  | succ n ih =>
    intro c p
    unfold allocInnerLoop
    split
    · split
      · split
        · omega
        · exact ih _ _
      · exact ih _ _
    · rfl

/-- Claim C10: a zero-page request can never succeed — for every pmm state
(even with free frames) `alloc_nozero(0)` scans, resets the cursor, retries
and ends in the fatal OOM panic (`none`), because the run counter `p` is
compared to `pages` only after `p + 1`, which never equals 0. The concrete
instance has an all-free 8-frame bitmap. -/
theorem claimC10_zero_pages_oom :
    (∀ s : PmmState, allocNozero s 0 = none) ∧
    allocNozero ⟨[0], 0⟩ 0 = none ∧ bitmapTest [0] 2 = false := by
  refine ⟨?_, by decide, by decide⟩
  intro s
  unfold allocNozero allocInner
  rw [allocInnerLoop_zero_pages, allocInnerLoop_zero_pages]

theorem pmmAllocZ_spec (stb : KState) (pages phys : Nat) (st2 : KState)
    (h : pmmAllocZ stb pages = some (phys, st2)) :
    ∃ pm, allocNozero stb.pmm pages = some (phys, pm) ∧
      st2.hhdm = stb.hhdm ∧ st2.slabs = stb.slabs ∧
      st2.mem = writeBytes stb.mem (phys + stb.hhdm) 0 (pages * 0x1000) ∧
      st2.pmm = pm := by
  unfold pmmAllocZ at h
  cases hz : allocNozero stb.pmm pages with
  | none => rw [hz] at h; exact absurd h (by simp)
  | some r =>
    obtain ⟨ph, pm⟩ := r
    rw [hz] at h
    simp only [Option.some.injEq, Prod.mk.injEq] at h
    obtain ⟨hp, hst⟩ := h
    subst hp
    subst hst
    exact ⟨pm, rfl, rfl, rfl, rfl, rfl⟩

theorem slabInitAt_spec (stb : KState) (i : Nat) (st1 : KState)
    (h : slabInitAt stb i = some st1) :
    ∃ phys pm, allocNozero stb.pmm 1 = some (phys, pm) ∧
      st1.hhdm = stb.hhdm ∧
      st1.slabs = stb.slabs.set i
        ⟨(stb.slabs.getD i default).size,
          phys + stb.hhdm + 8 * align_up 8 (stb.slabs.getD i default).size⟩ := by
  simp only [slabInitAt] at h
  cases hz : pmmAllocZ stb 1 with
  | none => rw [hz] at h; exact absurd h (by simp)
  | some r =>
    obtain ⟨phys, stz⟩ := r
    rw [hz] at h
    simp only [Option.some.injEq] at h
    obtain ⟨pm, hzn, hh, hsl, hmem, hpm⟩ := pmmAllocZ_spec _ _ _ _ hz
    subst h
    refine ⟨phys, pm, hzn, hh, ?_⟩
    show stz.slabs.set i
        ⟨(stz.slabs.getD i default).size,
          phys + stz.hhdm + 8 * align_up 8 (stz.slabs.getD i default).size⟩ = _
    rw [hsl, hh]

theorem allocInner_mod (s : PmmState) (pages phys : Nat) (pm : PmmState)
    (h : allocInner s pages = some (phys, pm)) : phys % 4096 = 0 := by
  unfold allocInner at h
  cases h1 : allocInnerLoop s.bitmap pages (bitmapLen s.bitmap) s.cursor 0 with
  | none => rw [h1] at h; exact absurd h (by simp)
  | some r =>
    obtain ⟨page, cur, bm⟩ := r
    rw [h1] at h
    simp only [Option.some.injEq, Prod.mk.injEq] at h
    obtain ⟨hp, -⟩ := h
    subst hp
    exact Nat.mul_mod_left page 4096

theorem allocNozero_mod (s : PmmState) (pages phys : Nat) (pm : PmmState)
    (h : allocNozero s pages = some (phys, pm)) : phys % 4096 = 0 := by
  unfold allocNozero at h
  cases hA : allocInner s pages with
  | some r =>
    rw [hA] at h
    simp only [Option.some.injEq] at h
    subst h
    exact allocInner_mod _ _ _ _ hA
  | none =>
    rw [hA] at h
    exact allocInner_mod _ _ _ _ h

theorem slabAllocAt_zero (stb : KState) (i p : Nat) (st2 : KState)
    (hok : slabSizesOk stb) (hi : i < 10)
    (h : slabAllocAt stb i = some (p, st2)) :
    ∀ j, j < sizeClasses.getD i 0 → st2.mem (p + j) = 0 := by
  intro j hj
  have hlen : stb.slabs.length = 10 := by
    have := congrArg List.length hok
    simpa [sizeClasses] using this
  have hilen : i < stb.slabs.length := by omega
  simp only [slabAllocAt] at h
  by_cases hff : (stb.slabs.getD i default).first_free = 0
  · rw [if_pos hff] at h
    cases hinit : slabInitAt stb i with
    | none => rw [hinit] at h; exact absurd h (by simp)
    | some st1 =>
      rw [hinit] at h
      simp only [Option.some.injEq, Prod.mk.injEq] at h
      obtain ⟨hp, hst⟩ := h
      obtain ⟨phys, pm, hzn, hh, hsl⟩ := slabInitAt_spec stb i st1 hinit
      have hs1 : st1.slabs.getD i default =
          ⟨(stb.slabs.getD i default).size,
            phys + stb.hhdm + 8 * align_up 8 (stb.slabs.getD i default).size⟩ := by
        rw [hsl]
        exact getD_set_self _ i _ _ (by omega)
      have hsz : (st1.slabs.getD i default).size = sizeClasses.getD i 0 := by
        rw [hs1]
        show (stb.slabs.getD i default).size = _
        rw [getD_map_size stb.slabs i hilen, hok]
      subst hst
      subst hp
      exact writeBytes_apply_inside _ _ _ _ j (by rw [hsz]; exact hj)
  · rw [if_neg hff] at h
    simp only [Option.some.injEq, Prod.mk.injEq] at h
    obtain ⟨hp, hst⟩ := h
    have hsz : (stb.slabs.getD i default).size = sizeClasses.getD i 0 := by
      rw [getD_map_size stb.slabs i hilen, hok]
    subst hst
    subst hp
    exact writeBytes_apply_inside _ _ _ _ j (by rw [hsz]; exact hj)

/-- Claim C6: every byte of a region freshly returned by `Alloc::alloc` is
zero. On the slab path the pop is followed by `write_bytes(ret, 0, size)`,
zeroing the class-size bytes of the returned block; on the frame path
`pmm::alloc` zero-fills the whole `align_up(size, 4096)`-byte page run at
its direct-mapped address before the dispatcher returns it. `regionLen`
is the class size resp. the page-rounded size, and the hypothesis is that
the descriptors carry the sizes `Alloc::new` installed. -/
theorem claimC6_zero_fill (st : KState) (size p : Nat) (st2 : KState)
    (hok : slabSizesOk st) (h : heapAlloc st size = some (p, st2)) :
    ∀ j, j < regionLen size → st2.mem (p + j) = 0 := by
  intro j hj
  cases hidx : slabIndex size with
  | some i =>
    simp only [regionLen, hidx] at hj
    simp only [heapAlloc, hidx] at h
    exact slabAllocAt_zero { st with mem_used := (st.mem_used + size) % 2 ^ 64 }
      i p st2 hok (slabIndex_lt_ten hidx) h j hj
  | none =>
    simp only [regionLen, hidx] at hj
    simp only [heapAlloc, hidx] at h
    cases hz : pmmAllocZ { st with mem_used := (st.mem_used + size) % 2 ^ 64 }
        (align_up size 4096 / 4096) with
    | none => rw [hz] at h; exact absurd h (by simp)
    | some r =>
      obtain ⟨phys, st1⟩ := r
      rw [hz] at h
      simp only [Option.some.injEq, Prod.mk.injEq] at h
      obtain ⟨hp, hst⟩ := h
      obtain ⟨pm, hzn, hh, hsl, hmem, hpm⟩ := pmmAllocZ_spec _ _ _ _ hz
      subst hst
      subst hp
      rw [hmem, hh]
      show writeBytes st.mem (phys + st.hhdm) 0 (align_up size 4096 / 4096 * 0x1000)
          ((phys + st.hhdm) + j) = 0
      exact writeBytes_apply_inside _ _ _ _ j (by rw [align_up_4096_div_mul]; exact hj)

theorem claimC6_witness :
    (heapAlloc freshState 5000).elim 1 (fun r => r.2.mem r.1) = 0 := by
  cases e : heapAlloc freshState 5000 with
  | none =>
    have hs : (heapAlloc freshState 5000).isSome = true := by decide
    rw [e] at hs
    simp at hs
  | some r =>
    obtain ⟨p, st2⟩ := r
    simp only [Option.elim]
    have := claimC6_zero_fill freshState 5000 p st2
      (by unfold slabSizesOk; decide) e 0 (by decide)
    simpa using this

/-- Claim C8 counterexample: with two adjacent usable 64 KiB regions the
computed bitmap size is 4096 bytes and both regions are large enough, so
`init` carves both — each base advanced and each length shrunk by 4096 —
and places the bitmap at the original base of the last one (0x10000). The
claim demanded that only the first region change and the bitmap live
there; here the second region does not keep its original extent. -/
theorem claimC8_counterexample :
    (pmmInit twoRegions).map (fun r => (r.1, r.2.1)) =
      some ([⟨4096, 61440, true⟩, ⟨69632, 61440, true⟩], 0x10000) ∧
    (⟨69632, 61440, true⟩ : MemEntry) ≠ ⟨0x10000, 0x10000, true⟩ := by
  decide

theorem carveLoop_fst (bs : Nat) : ∀ (l : List MemEntry) (acc : Option Nat),
    (carveLoop bs acc l).1 = l.map (carveEntry bs) := by
  intro l
  induction l with
  | nil => intro acc; rfl
  | cons e rest ih =>
    intro acc
    by_cases hc : (e.usable && decide (bs ≤ e.len)) = true
    · simp only [carveLoop, List.map_cons, carveEntry, if_pos hc, ih]
    · simp only [carveLoop, List.map_cons, carveEntry, if_neg hc, ih]

theorem carveLoop_snd (bs : Nat) : ∀ (l : List MemEntry) (acc : Option Nat),
    (carveLoop bs acc l).2 =
      l.foldl (fun a e => if e.usable && decide (bs ≤ e.len) then some e.base else a) acc := by
  intro l
  induction l with
  | nil => intro acc; rfl
  | cons e rest ih =>
    intro acc
    by_cases hc : (e.usable && decide (bs ≤ e.len)) = true
    · simp only [carveLoop, List.foldl_cons, if_pos hc, ih]
    · simp only [carveLoop, List.foldl_cons, if_neg hc, ih]

/-- Claim C8 as amended: during initialization the bitmap-placement loop
carves every usable region at least as long as the bitmap (advancing its
base and shrinking its length by the bitmap size, `carveEntry`), leaves the
remaining regions untouched, and records as bitmap storage the original
base of the last such region (`lastCarvedBase`), not the first. -/
theorem claimC8_amended (bs : Nat) (l : List MemEntry) :
    (carveLoop bs none l).1 = l.map (carveEntry bs) ∧
    (carveLoop bs none l).2 = lastCarvedBase bs l :=
  ⟨carveLoop_fst bs l none, carveLoop_snd bs l none⟩

/-- Claim C9 counterexample: `alloc(20, 16)` routes to class 24 (alignment
is ignored by `Alloc::alloc`); from a fresh kernel the first two such
allocations return 65600 and then 65624, and 65624 is not 16-byte aligned
even though 16 is a power of two not exceeding the requested size 20. -/
theorem claimC9_counterexample :
    allocTwice freshState 20 20 = some (65600, 65624) ∧ 65624 % 16 = 8 := by
  decide

/-- Claim C9 as amended: `Alloc::alloc` guarantees the claimed natural
alignment only partially. (1) On the frame path the returned pointer is
4096-byte aligned, provided the direct-map offset is page-aligned. (2) On
the slab path, for an allocation that draws a fresh page (empty free
list), the returned block is always 8-byte aligned, and is aligned to
every power of two up to the class size only for the power-of-two classes
(every class except 24 — index 2 — and 48 — index 4); the non-power-of-two
classes guarantee 8-byte alignment only. -/
theorem claimC9_amended :
    (∀ (st : KState) (size p : Nat) (st2 : KState), slabIndex size = none →
        st.hhdm % 4096 = 0 → heapAlloc st size = some (p, st2) → p % 4096 = 0) ∧
    (∀ (st : KState) (i size p : Nat) (st2 : KState), slabSizesOk st →
        st.hhdm % 4096 = 0 → slabIndex size = some i →
        (st.slabs.getD i default).first_free = 0 →
        heapAlloc st size = some (p, st2) →
        p % 8 = 0 ∧ (i ≠ 2 → i ≠ 4 → p % sizeClasses.getD i 0 = 0)) := by
  constructor
  · intro st size p st2 hidx hh h
    simp only [heapAlloc, hidx] at h
    cases hz : pmmAllocZ { st with mem_used := (st.mem_used + size) % 2 ^ 64 }
        (align_up size 4096 / 4096) with
    | none => rw [hz] at h; exact absurd h (by simp)
    | some r =>
      obtain ⟨phys, st1⟩ := r
      rw [hz] at h
      simp only [Option.some.injEq, Prod.mk.injEq] at h
      obtain ⟨hp, hst⟩ := h
      obtain ⟨pm, hzn, hhh, hsl, hmem, hpm⟩ := pmmAllocZ_spec _ _ _ _ hz
      have hmod : phys % 4096 = 0 := allocNozero_mod _ _ _ _ hzn
      subst hst
      subst hp
      rw [hhh]
      show (phys + st.hhdm) % 4096 = 0
      omega
  · intro st i size p st2 hok hh hidx hff h
    have hi : i < 10 := slabIndex_lt_ten hidx
    have hlen : st.slabs.length = 10 := by
      have := congrArg List.length hok
      simpa [sizeClasses] using this
    simp only [heapAlloc, hidx] at h
    simp only [slabAllocAt] at h
    rw [if_pos hff] at h
    cases hinit : slabInitAt { st with mem_used := (st.mem_used + size) % 2 ^ 64 } i with
    | none => rw [hinit] at h; exact absurd h (by simp)
    | some st1 =>
      rw [hinit] at h
      simp only [Option.some.injEq, Prod.mk.injEq] at h
      obtain ⟨hp, hst⟩ := h
      obtain ⟨phys, pm, hzn, hhh, hsl⟩ := slabInitAt_spec _ i st1 hinit
      have hmod : phys % 4096 = 0 := allocNozero_mod _ _ _ _ hzn
      have hs1 : st1.slabs.getD i default =
          ⟨(st.slabs.getD i default).size,
            phys + st.hhdm + 8 * align_up 8 (st.slabs.getD i default).size⟩ := by
        rw [hsl]
        exact getD_set_self _ i _ _ (by show i < st.slabs.length; omega)
      have hsz : (st.slabs.getD i default).size = sizeClasses.getD i 0 := by
        rw [getD_map_size st.slabs i (by omega), hok]
      have hpv : p = phys + st.hhdm + 8 * align_up 8 (sizeClasses.getD i 0) := by
        rw [← hp, hs1, ← hsz]
      subst hpv
      interval_cases i <;>
        simp only [sizeClasses, List.getD_cons_zero, List.getD_cons_succ,
          show align_up 8 8 = 8 from by decide, show align_up 8 16 = 16 from by decide,
          show align_up 8 24 = 8 from by decide, show align_up 8 32 = 32 from by decide,
          show align_up 8 48 = 16 from by decide, show align_up 8 64 = 64 from by decide,
          show align_up 8 128 = 128 from by decide, show align_up 8 256 = 256 from by decide,
          show align_up 8 512 = 512 from by decide,
          show align_up 8 1024 = 1024 from by decide] <;>
        refine ⟨by omega, fun h2 h4 => ?_⟩ <;>
        first
          | exact absurd rfl h2
          | exact absurd rfl h4
          | omega

theorem claimC9_witness :
    (heapAlloc freshState 5000).elim 1 (fun r => r.1 % 4096) = 0 ∧
    (heapAlloc freshState 1000).elim 1 (fun r => r.1 % 1024) = 0 := by
  constructor
  · cases e : heapAlloc freshState 5000 with
    | none =>
      have hs : (heapAlloc freshState 5000).isSome = true := by decide
      rw [e] at hs
      simp at hs
    | some r =>
      obtain ⟨p, st2⟩ := r
      simp only [Option.elim]
      exact claimC9_amended.1 freshState 5000 p st2 (by decide) (by decide) e
  · cases e : heapAlloc freshState 1000 with
    | none =>
      have hs : (heapAlloc freshState 1000).isSome = true := by decide
      rw [e] at hs
      simp at hs
    | some r =>
      obtain ⟨p, st2⟩ := r
      simp only [Option.elim]
      have := claimC9_amended.2 freshState 9 1000 p st2
        (by unfold slabSizesOk; decide) (by decide) (by decide) (by decide) e
      have h2 := this.2 (by decide) (by decide)
      simpa [sizeClasses] using h2

end Beryl

